import Mathlib

/- Shallow embedding of the KiCad pin-to-pad verification tool
   (3rdparty/LCSC/footprints/verify_pins_to_pads.py) and proofs about it.

   Python sets of identifier strings become `Finset String`; Python dicts
   become insertion-ordered association lists (`List (String × α)`) whose
   lookup takes the first matching key and whose update keeps an existing
   key's position and appends a new key, exactly as Python dicts do. -/

namespace KicadVerify

/-- Lookup in an association list modelling a Python dict (`d[k]` / `k in d`). -/
def dictFind {α : Type} : List (String × α) → String → Option α
  | [], _ => none
  | kv :: rest, k => if kv.1 = k then some kv.2 else dictFind rest k

/-- Models Python `d.get(k, 0)`. -/
def dictGet (d : List (String × Nat)) (k : String) : Nat :=
  (dictFind d k).getD 0

/-- Models Python `d[k] = v`: replaces the value at an existing key in place,
appends a new key at the end. -/
def dictSet {α : Type} : List (String × α) → String → α → List (String × α)
  | [], k, v => [(k, v)]
  | kv :: rest, k, v => if kv.1 = k then (k, v) :: rest else kv :: dictSet rest k v

/-- The `Symbol` dataclass of the source: a KiCad symbol with its pins and
footprint reference. -/
structure Symbol where
  name : String
  footprint : String
  pin_numbers : Finset String := ∅
  pin_occurrences : List (String × Nat) := []
  lcsc : String := ""
deriving DecidableEq

/-- The `Footprint` dataclass of the source: a KiCad footprint with its pads. -/
structure Footprint where
  name : String
  pad_numbers : Finset String := ∅
deriving DecidableEq

/-- The `VerificationResult` dataclass of the source. -/
structure VerificationResult where
  symbol_name : String
  footprint_name : String
  symbol_pin_count : Nat
  footprint_pad_count : Nat
  pins_without_pads : Finset String
  pads_without_pins : Finset String
  footprint_found : Bool := true
  duplicate_pins : List (String × Nat) := []
deriving DecidableEq

/-- Property `VerificationResult.matches`: `self.footprint_found and not
self.pins_without_pads and not self.pads_without_pins` (an empty Python set
is falsy). -/
def VerificationResult.matches (r : VerificationResult) : Bool :=
  r.footprint_found && decide (r.pins_without_pads = ∅)
    && decide (r.pads_without_pins = ∅)

/-- Property `VerificationResult.status`: FOOTPRINT_NOT_FOUND if not found, else OK if
matches, else MISMATCH. -/
def VerificationResult.status (r : VerificationResult) : String :=
  if !r.footprint_found then "FOOTPRINT_NOT_FOUND"
  else if r.matches then "OK"
  else "MISMATCH"

/-- The two-level footprint catalog `footprint_libs`: library name →
footprint name → Footprint, insertion-ordered as a Python dict. -/
abbrev FootprintLibs := List (String × List (String × Footprint))

/-- Models Python `s.split(c, 1)`: the part before the first occurrence of
`c` and the part after it, or `none` when `c` does not occur. -/
def splitFirstOn (c : Char) : List Char → Option (List Char × List Char)
  | [] => none
  | x :: xs =>
    if x = c then some ([], xs)
    else
      match splitFirstOn c xs with
      | some ab => some (x :: ab.1, ab.2)
      | none => none

/-- The `for lib in footprint_libs.values(): if fp_name in lib: return
lib[fp_name]` loop of `resolve_footprint_reference`: first library in index
order containing the footprint wins. -/
def searchAllLibs (fp_name : String) : FootprintLibs → Option Footprint
  | [] => none
  | lib :: rest =>
    match dictFind lib.2 fp_name with
    | some fp => some fp
    | none => searchAllLibs fp_name rest

/-- Function `resolve_footprint_reference`: split the reference on the first `:` into
library and footprint name; if a non-empty library name is given (Python
`lib_name and ...`: an empty string is falsy) and the library is in the
index, look only there; otherwise search all libraries in index order. -/
def resolve_footprint_reference (fp_ref : String) (footprint_libs : FootprintLibs) :
    Option Footprint :=
  match splitFirstOn ':' fp_ref.toList with
  | some ab =>
    let lib_name : String := String.mk ab.1
    let fp_name : String := String.mk ab.2
    if lib_name != "" && (dictFind footprint_libs lib_name).isSome then
      (dictFind footprint_libs lib_name).bind (fun lib => dictFind lib fp_name)
    else
      searchAllLibs fp_name footprint_libs
  | none => searchAllLibs fp_ref footprint_libs

/-- Function `verify_symbol`: resolve the footprint, compute the duplicate-pin map
unconditionally, then either report the whole pin set as unmatched (not
found) or the two set differences (found). -/
def verify_symbol (symbol : Symbol) (footprint_libs : FootprintLibs) :
    VerificationResult :=
  let footprint := resolve_footprint_reference symbol.footprint footprint_libs
  let duplicates := symbol.pin_occurrences.filter (fun pc => decide (1 < pc.2))
  match footprint with
  | none =>
    { symbol_name := symbol.name
      footprint_name := symbol.footprint
      symbol_pin_count := symbol.pin_numbers.card
      footprint_pad_count := 0
      pins_without_pads := symbol.pin_numbers
      pads_without_pins := ∅
      footprint_found := false
      duplicate_pins := duplicates }
  | some footprint =>
    { symbol_name := symbol.name
      footprint_name := symbol.footprint
      symbol_pin_count := symbol.pin_numbers.card
      footprint_pad_count := footprint.pad_numbers.card
      pins_without_pads := symbol.pin_numbers \ footprint.pad_numbers
      pads_without_pins := footprint.pad_numbers \ symbol.pin_numbers
      footprint_found := true
      duplicate_pins := duplicates }

/-- The verification loop of `main`: symbols without an assigned footprint
(empty string, falsy in Python) are skipped; the rest are verified in order. -/
def runResults (symbols : List Symbol) (footprint_libs : FootprintLibs) :
    List VerificationResult :=
  (symbols.filter (fun s => s.footprint != "")).map
    (fun s => verify_symbol s footprint_libs)

/-- Counter `mismatch_count` of `main`: how many results have status MISMATCH. -/
def mismatch_count (results : List VerificationResult) : Nat :=
  results.countP (fun r => r.status == "MISMATCH")

/-- The exit code `main` produces after reporting: in JSON mode the function
returns without ever calling `sys.exit`, so the process exits 0; in text
mode it exits 1 exactly when `mismatch_count > 0`. -/
def mainExitCode (jsonMode : Bool) (results : List VerificationResult) : Nat :=
  if jsonMode then 0
  else if 0 < mismatch_count results then 1 else 0

/-- Code-point lexicographic comparison of character lists: exactly the
ordering Python uses to compare strings. -/
def lexLEList : List Char → List Char → Bool
  | [], _ => true
  | _ :: _, [] => false
  | a :: as, b :: bs =>
    if a.toNat < b.toNat then true
    else if b.toNat < a.toNat then false
    else lexLEList as bs

/-- Python string comparison `x <= y` (lexicographic by code point). -/
def lexLE (x y : String) : Bool := lexLEList x.toList y.toList

/-- Relation form of `lexLE`, for sortedness statements. -/
def LexRel (x y : String) : Prop := lexLE x y = true

instance : DecidableRel LexRel := fun x y => instDecidableEqBool (lexLE x y) true

theorem lexLEList_cons (x y : Char) (xs ys : List Char) :
    lexLEList (x :: xs) (y :: ys) = true ↔
      x.toNat < y.toNat ∨ (x.toNat = y.toNat ∧ lexLEList xs ys = true) := by
  simp only [lexLEList]
  by_cases h1 : x.toNat < y.toNat
  · simp [h1]
  · by_cases h2 : y.toNat < x.toNat
    · simp only [h1, h2, ite_true, ite_false]
      constructor
      · intro h
        simp at h
      · intro h
        rcases h with h | ⟨he, _⟩
        · exact h.elim
        · omega
    · have he : x.toNat = y.toNat := by omega
      simp [h1, h2, he]

theorem lexLEList_total (a b : List Char) : lexLEList a b = true ∨ lexLEList b a = true := by
  induction a generalizing b with
  | nil => exact Or.inl rfl
  | cons x xs ih =>
    cases b with
    | nil => exact Or.inr rfl
    | cons y ys =>
      rcases Nat.lt_trichotomy x.toNat y.toNat with h | h | h
      · exact Or.inl ((lexLEList_cons x y xs ys).mpr (Or.inl h))
      · rcases ih ys with ht | ht
        · exact Or.inl ((lexLEList_cons x y xs ys).mpr (Or.inr ⟨h, ht⟩))
        · exact Or.inr ((lexLEList_cons y x ys xs).mpr (Or.inr ⟨h.symm, ht⟩))
      · exact Or.inr ((lexLEList_cons y x ys xs).mpr (Or.inl h))

theorem lexLEList_trans {a b c : List Char} (hab : lexLEList a b = true)
    (hbc : lexLEList b c = true) : lexLEList a c = true := by
  induction a generalizing b c with
  | nil => rfl
  | cons x xs ih =>
    cases b with
    | nil => simp [lexLEList] at hab
    | cons y ys =>
      cases c with
      | nil => simp [lexLEList] at hbc
      | cons z zs =>
        rcases (lexLEList_cons x y xs ys).mp hab with h1 | h1 <;>
          rcases (lexLEList_cons y z ys zs).mp hbc with h2 | h2
        · exact (lexLEList_cons x z xs zs).mpr (Or.inl (by omega))
        · exact (lexLEList_cons x z xs zs).mpr (Or.inl (by omega))
        · exact (lexLEList_cons x z xs zs).mpr (Or.inl (by omega))
        · exact (lexLEList_cons x z xs zs).mpr
            (Or.inr ⟨by omega, ih h1.2 h2.2⟩)

theorem lexLEList_antisymm {a b : List Char} (hab : lexLEList a b = true)
    (hba : lexLEList b a = true) : a = b := by
  induction a generalizing b with
  | nil =>
    cases b with
    | nil => rfl
    | cons y ys => simp [lexLEList] at hba
  | cons x xs ih =>
    cases b with
    | nil => simp [lexLEList] at hab
    | cons y ys =>
      rcases (lexLEList_cons x y xs ys).mp hab with h1 | h1 <;>
        rcases (lexLEList_cons y x ys xs).mp hba with h2 | h2
      · omega
      · omega
      · omega
      · have hx : x = y := Char.ext (UInt32.toNat.inj h1.1)
        rw [hx, ih h1.2 h2.2]

instance : IsTotal String LexRel := ⟨fun a b => lexLEList_total a.toList b.toList⟩

instance : IsTrans String LexRel := ⟨fun _ _ _ h1 h2 => lexLEList_trans h1 h2⟩

instance : IsAntisymm String LexRel :=
  ⟨fun _ _ h1 h2 => String.toList_inj.mp (lexLEList_antisymm h1 h2)⟩

instance : IsRefl String LexRel :=
  ⟨fun a => by
    rcases lexLEList_total a.toList a.toList with h | h <;> exact h⟩

/-- Sorting a multiset of strings into a list, lexicographically. Defined
through `insertionSort` (structural recursion) so that concrete instances
evaluate inside the kernel. -/
def multisetSortLex (s : Multiset String) : List String :=
  Quot.liftOn s (fun l => List.insertionSort LexRel l)
    (fun a b h => by
      refine List.eq_of_perm_of_sorted (r := LexRel) ?_ ?_ ?_
      · exact ((List.perm_insertionSort LexRel a).trans h).trans
          (List.perm_insertionSort LexRel b).symm
      · exact List.sorted_insertionSort LexRel a
      · exact List.sorted_insertionSort LexRel b)

/-- The model's canonical enumeration of a Python set of strings: Python set
iteration order is arbitrary, so the model enumerates in lexicographic
order. Every place the source consumes such a set, it sorts it anyway. -/
def finsetToList (s : Finset String) : List String := multisetSortLex s.val

/-- Python `str.isdigit()` restricted to ASCII digits: nonempty and every
character one of 0..9. -/
def pyIsDigit (s : String) : Bool :=
  !s.toList.isEmpty && s.toList.all (fun c => c.isDigit)

/-- Python `int(s)` on a digit string. -/
def strToNat (s : String) : Nat :=
  s.toList.foldl (fun n c => 10 * n + (c.toNat - 48)) 0

/-- The sort key of `format_result`, lines 255 and 258 of the source:
`key=lambda x: (not x.isdigit(), int(x) if x.isdigit() else x)`.
Digit strings come first ordered by integer value; the rest follow in
lexicographic order. -/
def tieBreakLE (x y : String) : Bool :=
  if pyIsDigit x then
    if pyIsDigit y then decide (strToNat x ≤ strToNat y) else true
  else
    if pyIsDigit y then false else lexLE x y

/-- Relation form of `tieBreakLE`, for sortedness statements. -/
def TieBreakRel (x y : String) : Prop := tieBreakLE x y = true

instance : DecidableRel TieBreakRel := fun x y => instDecidableEqBool (tieBreakLE x y) true

instance : IsTotal String TieBreakRel := by
  constructor
  intro a b
  unfold TieBreakRel tieBreakLE
  by_cases da : pyIsDigit a = true <;> by_cases db : pyIsDigit b = true <;>
    simp [da, db]
  · exact Nat.le_total _ _
  · exact lexLEList_total a.toList b.toList

instance : IsTrans String TieBreakRel := by
  constructor
  intro a b c hab hbc
  unfold TieBreakRel tieBreakLE at *
  by_cases da : pyIsDigit a = true <;> by_cases db : pyIsDigit b = true <;>
    by_cases dc : pyIsDigit c = true <;> simp [da, db, dc] at *
  · exact Nat.le_trans hab hbc
  · exact lexLEList_trans hab hbc

/-- Python tuple comparison on `(pin, count)` pairs, used by
`dict(sorted(r.duplicate_pins.items()))` in the JSON output. -/
def pairLE (p q : String × Nat) : Bool :=
  if p.1 = q.1 then decide (p.2 ≤ q.2) else lexLE p.1 q.1

/-- Relation form of `pairLE`. -/
def PairRel (p q : String × Nat) : Prop := pairLE p q = true

instance : DecidableRel PairRel := fun p q => instDecidableEqBool (pairLE p q) true

/-- Line 255 of the source: the sorted pins-without-pads list shown for a
MISMATCH result in the text report. -/
def format_sorted_pins (r : VerificationResult) : List String :=
  List.insertionSort TieBreakRel (finsetToList r.pins_without_pads)

/-- Line 258 of the source: the sorted pads-without-pins list shown for a
MISMATCH result in the text report. -/
def format_sorted_pads (r : VerificationResult) : List String :=
  List.insertionSort TieBreakRel (finsetToList r.pads_without_pins)

/-- One element of `main`'s JSON output (source lines 340-349). -/
structure JsonResult where
  symbol : String
  footprint : String
  status : String
  symbol_pins : Nat
  footprint_pads : Nat
  pins_without_pads : List String
  pads_without_pins : List String
  duplicate_pins : List (String × Nat)
deriving DecidableEq

/-- The JSON record built for one result: the pin/pad arrays use plain
`sorted(...)`, i.e. lexicographic string order, unlike the tie-break key of
`format_result`. -/
def json_result (r : VerificationResult) : JsonResult :=
  { symbol := r.symbol_name
    footprint := r.footprint_name
    status := r.status
    symbol_pins := r.symbol_pin_count
    footprint_pads := r.footprint_pad_count
    pins_without_pads := List.insertionSort LexRel (finsetToList r.pins_without_pads)
    pads_without_pins := List.insertionSort LexRel (finsetToList r.pads_without_pins)
    duplicate_pins := List.insertionSort PairRel r.duplicate_pins }

/-! ### Scanners modelling the regular expressions of the parser

The source extracts names, pins and properties with `re` patterns built from
literal text, `\s+`, and quoted captures `([^"]+)` / `([^"]*)`. Each pattern
is modelled as a character-list scanner with the same maximal-munch
semantics (the character classes exclude the closing quote, so greedy
matching never backtracks inside a capture). Python's `\s` and `str.isdigit`
are modelled at the ASCII level (`Char.isWhitespace`, `Char.isDigit`); the
identifiers in these documents are ASCII. -/

/-- Match a literal character sequence, returning the rest of the input. -/
def stripLit : List Char → List Char → Option (List Char)
  | [], cs => some cs
  | _ :: _, [] => none
  | p :: ps, c :: cs => if c = p then stripLit ps cs else none

/-- Match `\s+`: at least one whitespace character, consuming the whole run. -/
def stripWs1 : List Char → Option (List Char)
  | [] => none
  | c :: cs => if c.isWhitespace then some (cs.dropWhile (fun d => d.isWhitespace)) else none

/-- Match `([^"]+)"`: a non-empty capture up to the next double quote,
which must be present and is consumed. -/
def captureQuoted1 (cs : List Char) : Option (String × List Char) :=
  let cap := cs.takeWhile (fun c => c ≠ '"')
  match cs.dropWhile (fun c => c ≠ '"') with
  | '"' :: rest => if cap.isEmpty then none else some (String.mk cap, rest)
  | _ => none

/-- Match `([^"]*)"`: a possibly-empty capture up to the next double quote,
which must be present and is consumed. -/
def captureQuoted0 (cs : List Char) : Option (String × List Char) :=
  let cap := cs.takeWhile (fun c => c ≠ '"')
  match cs.dropWhile (fun c => c ≠ '"') with
  | '"' :: rest => some (String.mk cap, rest)
  | _ => none

/-- The per-line pattern of the block splitter,
`re.match(r'\s*\(symbol\s+"([^"]+)"', line)`: optional leading whitespace,
the literal `(symbol`, whitespace, then a quoted symbol name. -/
def matchSymbolLine (cs : List Char) : Option String :=
  match stripLit ("(symbol".toList) (cs.dropWhile (fun c => c.isWhitespace)) with
  | none => none
  | some cs1 =>
    match stripWs1 cs1 with
    | none => none
    | some cs2 =>
      match cs2 with
      | '"' :: cs3 => (captureQuoted1 cs3).map (fun pr => pr.1)
      | _ => none

/-- Python `re.match` anchors at the start of the line. -/
def symbolLineName (line : String) : Option String := matchSymbolLine line.toList

/-- The sub-symbol test `re.search(r'_\d+_\d+$', name)`: the name ends in
`_<digits>_<digits>`. Checked from the reversed character list; because the
digit runs are anchored at the end, maximal munch is equivalent to the
regex search. -/
def isSubSymbolName (name : String) : Bool :=
  let r := name.toList.reverse
  let d1 := r.takeWhile (fun c => c.isDigit)
  match r.dropWhile (fun c => c.isDigit) with
  | '_' :: r2 =>
    let d2 := r2.takeWhile (fun c => c.isDigit)
    match r2.dropWhile (fun c => c.isDigit) with
    | '_' :: _ => !d1.isEmpty && !d2.isEmpty
    | _ => false
  | _ => false

/-- One match of the pin pattern `\(number\s+"([^"]+)"` at the current
position: the captured pin and the input after the match. -/
def matchPinNumber (cs : List Char) : Option (String × List Char) :=
  match stripLit ("(number".toList) cs with
  | none => none
  | some cs1 =>
    match stripWs1 cs1 with
    | none => none
    | some cs2 =>
      match cs2 with
      | '"' :: cs3 => captureQuoted1 cs3
      | _ => none

/-- The scan loop of `finditer` for the pin pattern: try a match at every
position, consuming each whole match. Fuel counts down by at least one
consumed character per step, so `fuel = cs.length` never truncates a scan. -/
def scanPinsGo : Nat → List Char → List String
  | 0, _ => []
  | _ + 1, [] => []
  | fuel + 1, c :: cs =>
    match matchPinNumber (c :: cs) with
    | some pr => pr.1 :: scanPinsGo fuel pr.2
    | none => scanPinsGo fuel cs

/-- All pin numbers matched in a block's content, in document order
(`pin_pattern.finditer(content)` of `parse_symbol_block`). -/
def scanPins (cs : List Char) : List String := scanPinsGo cs.length cs

/-- One attempt of the property pattern
`\(property\s+"NAME"\s+"([^"]*)"` at the current position, where `NAME`
runs over a regex alternation tried left to right (backtracking into the
next alternative when the rest of the pattern fails). -/
def matchPropertyAt (names : List String) (cs : List Char) : Option String :=
  match stripLit ("(property".toList) cs with
  | none => none
  | some cs1 =>
    match stripWs1 cs1 with
    | none => none
    | some cs2 =>
      match cs2 with
      | '"' :: cs3 => tryPropertyNames names cs3
      | _ => none
where
  tryPropertyNames : List String → List Char → Option String
    | [], _ => none
    | n :: rest, cs3 =>
      match stripLit (n.toList ++ ['"']) cs3 with
      | some cs4 =>
        (match stripWs1 cs4 with
         | some cs5 =>
           (match cs5 with
            | '"' :: cs6 => (captureQuoted0 cs6).map (fun pr => pr.1)
            | _ => tryPropertyNames rest cs3)
         | none => tryPropertyNames rest cs3)
      | none => tryPropertyNames rest cs3

/-- Python `re.search` for the property pattern: first match anywhere in the
content, scanning left to right. -/
def searchProperty (names : List String) : List Char → Option String
  | [] => none
  | c :: cs =>
    match matchPropertyAt names (c :: cs) with
    | some v => some v
    | none => searchProperty names cs

/-! ### The symbol-library parser -/

/-- The body of the pin loop of `parse_symbol_block`:
`symbol.pin_numbers.add(pin)` and
`symbol.pin_occurrences[pin] = symbol.pin_occurrences.get(pin, 0) + 1`. -/
def addPin (sym : Symbol) (pin : String) : Symbol :=
  { sym with
    pin_numbers := insert pin sym.pin_numbers
    pin_occurrences := dictSet sym.pin_occurrences pin (dictGet sym.pin_occurrences pin + 1) }

/-- Function `parse_symbol_block`: join the block's lines, extract the first
Footprint property (empty when missing), the first LCSC / LCSC Part
property, and fold every matched pin number into the pin set and the
occurrence map. -/
def parse_symbol_block (name : String) (lines : List String) : Symbol :=
  let content := String.intercalate "\n" lines
  let fp := (searchProperty ["Footprint"] content.toList).getD ""
  let lcsc := (searchProperty ["LCSC", "LCSC Part"] content.toList).getD ""
  (scanPins content.toList).foldl addPin
    { name := name, footprint := fp, pin_numbers := ∅, pin_occurrences := [], lcsc := lcsc }

/-- A line opens a new top-level block iff it matches the symbol pattern
and the captured name is not a sub-symbol name. -/
def topLevelName (line : String) : Option String :=
  match symbolLineName line with
  | some n => if isSubSymbolName n then none else some n
  | none => none

/-- The `if in_symbol: current_symbol_content.append(line)` step: lines are
accumulated only once a top-level symbol has been seen. -/
def appendLine (cur : Option (String × List String)) (inSym : Bool) (line : String) :
    Option (String × List String) :=
  if inSym then cur.map (fun nc => (nc.1, nc.2 ++ [line])) else cur

/-- The line loop of `parse_symbol_library`: `cur` is the block being
accumulated (name and lines), `inSym` the `in_symbol` flag, `depth` the
parenthesis-depth counter (tracked by the source but never read). A
top-level symbol line flushes the current block and starts a new one; every
other line is appended to the current block when inside a symbol; the final
block is flushed at end of input. -/
def splitGo (cur : Option (String × List String)) (inSym : Bool) (depth : Int) :
    List String → List (String × List String)
  | [] =>
    match cur with
    | some nc => [nc]
    | none => []
  | line :: rest =>
    let depth2 := depth + (line.toList.count '(' : Int) - (line.toList.count ')' : Int)
    match symbolLineName line with
    | some name =>
      if isSubSymbolName name then
        splitGo (appendLine cur inSym line) inSym depth2 rest
      else
        (match cur with
         | some nc => [nc]
         | none => []) ++ splitGo (some (name, [line])) true depth2 rest
    | none => splitGo (appendLine cur inSym line) inSym depth2 rest

/-- Python `content.split('\n')`: cut on every newline; the empty string
yields one empty line. -/
def splitLinesGo (acc : List Char) : List Char → List String
  | [] => [String.mk acc.reverse]
  | x :: xs =>
    if x = '\n' then String.mk acc.reverse :: splitLinesGo [] xs
    else splitLinesGo (x :: acc) xs

/-- The lines of a document, as `content.split('\n')` produces them. -/
def splitLines (content : String) : List String := splitLinesGo [] content.toList

/-- Function `parse_symbol_library`: split the document into lines, cut it into
top-level blocks, and parse each block into a Symbol. -/
def parse_symbol_library (content : String) : List Symbol :=
  (splitGo none false 0 (splitLines content)).map
    (fun nc => parse_symbol_block nc.1 nc.2)

/-! ### The observable actions of `main`

`main` does file-system input, so its control flow is modelled as the
sequence of observable events it performs, abstracting what a path's
content parses to behind oracle functions. The existence checks and their
order are exactly those of the source: each symbol file is checked and then
parsed in turn, then each footprint directory. -/

/-- An observable step of `main`. -/
inductive Event where
  | errorReported (path : String)
  | parsedSymbolFile (path : String)
  | parsedFootprintDir (path : String)
  | reportEmitted (jsonMode : Bool)
  | exited (code : Nat)
deriving DecidableEq

/-- One input loop of `main` (lines 296-302 for symbol files, 307-310 for
footprint directories): for each declared path in order, a missing path
prints an error and exits 1 on the spot; an existing path is parsed. The
Bool is true when the loop aborted the run. -/
def inputPhase (mk : String → Event) (exists_fn : String → Bool) :
    List String → List Event × Bool
  | [] => ([], false)
  | p :: ps =>
    if exists_fn p then
      let r := inputPhase mk exists_fn ps
      (mk p :: r.1, r.2)
    else ([Event.errorReported p, Event.exited 1], true)

/-- The whole of `main` as an event trace. `read_symbols` and `read_dir`
are oracles for what an existing path parses to (`read_dir` yields the
libraries loaded from one footprint-directory argument, already named per
the `.pretty` convention of lines 311-326). -/
def mainRun (exists_fn : String → Bool) (read_symbols : String → List Symbol)
    (read_dir : String → FootprintLibs) (symPaths fpPaths : List String)
    (jsonMode : Bool) : List Event :=
  let sp := inputPhase Event.parsedSymbolFile exists_fn symPaths
  if sp.2 then sp.1
  else
    let fp := inputPhase Event.parsedFootprintDir exists_fn fpPaths
    if fp.2 then sp.1 ++ fp.1
    else
      let all_symbols := symPaths.flatMap read_symbols
      let footprint_libs := (fpPaths.flatMap read_dir).foldl
        (fun d nl => dictSet d nl.1 nl.2) []
      let results := runResults all_symbols footprint_libs
      sp.1 ++ fp.1 ++ [Event.reportEmitted jsonMode,
        Event.exited (mainExitCode jsonMode results)]

/-! ### Helper lemmas -/

/-- Characterization of `matches` as a proposition. -/
theorem matches_char (r : VerificationResult) :
    r.matches = true ↔
      r.footprint_found = true ∧ r.pins_without_pads = ∅ ∧ r.pads_without_pins = ∅ := by
  simp [VerificationResult.matches, Bool.and_eq_true, and_assoc]

/-- C3: for every VerificationResult, `matches` holds iff `footprint_found`
is true and both `pins_without_pads` and `pads_without_pins` are empty; the
value of `duplicate_pins` never affects it. -/
theorem matches_iff_found_and_no_diffs :
    (∀ r : VerificationResult,
      r.matches = true ↔
        r.footprint_found = true ∧ r.pins_without_pads = ∅ ∧ r.pads_without_pins = ∅) ∧
    (∀ (r : VerificationResult) (d : List (String × Nat)),
      ({ r with duplicate_pins := d } : VerificationResult).matches = r.matches) :=
  ⟨matches_char, fun _ _ => rfl⟩

/-- C5: every result has status OK, FOOTPRINT_NOT_FOUND or MISMATCH; OK iff
the footprint was found and the result matches, FOOTPRINT_NOT_FOUND iff the
footprint was not found, MISMATCH iff the footprint was found and at least
one difference set is non-empty. The three conditions are mutually
exclusive and exhaustive, as the three iffs show. -/
theorem status_trichotomy :
    ∀ r : VerificationResult,
      (r.status = "OK" ∨ r.status = "FOOTPRINT_NOT_FOUND" ∨ r.status = "MISMATCH") ∧
      (r.status = "OK" ↔ r.footprint_found = true ∧ r.matches = true) ∧
      (r.status = "FOOTPRINT_NOT_FOUND" ↔ r.footprint_found = false) ∧
      (r.status = "MISMATCH" ↔ r.footprint_found = true ∧
        (r.pins_without_pads ≠ ∅ ∨ r.pads_without_pins ≠ ∅)) := by
  intro r
  by_cases hf : r.footprint_found = true
  · by_cases hm : r.matches = true
    · have hstat : r.status = "OK" := by
        simp [VerificationResult.status, hf, hm]
      obtain ⟨-, hp, hq⟩ := (matches_char r).mp hm
      rw [hstat]
      refine ⟨Or.inl rfl, ⟨fun _ => ⟨hf, hm⟩, fun _ => rfl⟩, ?_, ?_⟩
      · constructor
        · intro h
          exact absurd h (by decide)
        · intro h
          rw [hf] at h
          exact absurd h (by decide)
      · constructor
        · intro h
          exact absurd h (by decide)
        · intro h
          rcases h.2 with h2 | h2
          · exact absurd hp h2
          · exact absurd hq h2
    · have hstat : r.status = "MISMATCH" := by
        simp [VerificationResult.status, hf, hm]
      have hdiff : r.pins_without_pads ≠ ∅ ∨ r.pads_without_pins ≠ ∅ := by
        by_contra h
        push_neg at h
        exact hm ((matches_char r).mpr ⟨hf, h.1, h.2⟩)
      rw [hstat]
      refine ⟨Or.inr (Or.inr rfl), ?_, ?_, ?_⟩
      · constructor
        · intro h
          exact absurd h (by decide)
        · intro h
          exact absurd h.2 hm
      · constructor
        · intro h
          exact absurd h (by decide)
        · intro h
          rw [hf] at h
          exact absurd h (by decide)
      · exact ⟨fun _ => ⟨hf, hdiff⟩, fun _ => rfl⟩
  · have hf0 : r.footprint_found = false := by
      cases h : r.footprint_found
      · rfl
      · exact absurd h hf
    have hstat : r.status = "FOOTPRINT_NOT_FOUND" := by
      simp [VerificationResult.status, hf0]
    rw [hstat]
    refine ⟨Or.inr (Or.inl rfl), ?_, ⟨fun _ => hf0, fun _ => rfl⟩, ?_⟩
    · constructor
      · intro h
        exact absurd h (by decide)
      · intro h
        rw [hf0] at h
        exact absurd h.1 (by decide)
    · constructor
      · intro h
        exact absurd h (by decide)
      · intro h
        rw [hf0] at h
        exact absurd h.1 (by decide)

/-- C9: when the footprint reference does not resolve, the result reports
zero footprint pads while the symbol pin count is still the size of the
symbol's pin set. -/
theorem not_found_counts :
    ∀ (symbol : Symbol) (footprint_libs : FootprintLibs),
      resolve_footprint_reference symbol.footprint footprint_libs = none →
        (verify_symbol symbol footprint_libs).footprint_pad_count = 0 ∧
        (verify_symbol symbol footprint_libs).symbol_pin_count =
          symbol.pin_numbers.card := by
  intro s libs h
  simp [verify_symbol, h]

/-- C9 witness: a concrete symbol whose reference resolves nowhere. -/
theorem not_found_counts_witness :
    (verify_symbol
      { name := "U", footprint := "F", pin_numbers := {"1", "2"},
        pin_occurrences := [("1", 1), ("2", 1)] } []).footprint_pad_count = 0 ∧
    (verify_symbol
      { name := "U", footprint := "F", pin_numbers := {"1", "2"},
        pin_occurrences := [("1", 1), ("2", 1)] } []).symbol_pin_count =
      ({"1", "2"} : Finset String).card :=
  not_found_counts
    { name := "U", footprint := "F", pin_numbers := {"1", "2"},
      pin_occurrences := [("1", 1), ("2", 1)] } [] (by decide)

/-- C4: `verify_symbol` computes the duplicate-pin map (occurrence counts
above 1) identically in both branches; on failed resolution it returns the
whole pin set as `pins_without_pads`, an empty `pads_without_pins` and
`footprint_found = false`; on success it returns the two set differences
and `footprint_found = true`. It is a plain function of its two arguments,
hence deterministic and side-effect free. -/
theorem verify_symbol_contract :
    ∀ (symbol : Symbol) (footprint_libs : FootprintLibs),
      ((verify_symbol symbol footprint_libs).duplicate_pins =
        symbol.pin_occurrences.filter (fun pc => decide (1 < pc.2))) ∧
      (∀ p c, (p, c) ∈ (verify_symbol symbol footprint_libs).duplicate_pins ↔
        (p, c) ∈ symbol.pin_occurrences ∧ 1 < c) ∧
      (resolve_footprint_reference symbol.footprint footprint_libs = none →
        (verify_symbol symbol footprint_libs).pins_without_pads = symbol.pin_numbers ∧
        (verify_symbol symbol footprint_libs).pads_without_pins = ∅ ∧
        (verify_symbol symbol footprint_libs).footprint_found = false) ∧
      (∀ fp, resolve_footprint_reference symbol.footprint footprint_libs = some fp →
        (verify_symbol symbol footprint_libs).footprint_found = true ∧
        (verify_symbol symbol footprint_libs).pins_without_pads =
          symbol.pin_numbers \ fp.pad_numbers ∧
        (verify_symbol symbol footprint_libs).pads_without_pins =
          fp.pad_numbers \ symbol.pin_numbers ∧
        (∀ p, p ∈ (verify_symbol symbol footprint_libs).pins_without_pads ↔
          p ∈ symbol.pin_numbers ∧ p ∉ fp.pad_numbers) ∧
        (∀ p, p ∈ (verify_symbol symbol footprint_libs).pads_without_pins ↔
          p ∈ fp.pad_numbers ∧ p ∉ symbol.pin_numbers)) := by
  intro s libs
  refine ⟨?_, ?_, ?_, ?_⟩
  · cases h : resolve_footprint_reference s.footprint libs <;> simp [verify_symbol, h]
  · intro p c
    cases h : resolve_footprint_reference s.footprint libs <;>
      simp [verify_symbol, h, List.mem_filter]
  · intro h
    simp [verify_symbol, h]
  · intro fp h
    simp [verify_symbol, h, Finset.mem_sdiff]

/-- C1 counterexample: a whole run in JSON mode whose single result is a
MISMATCH (symbol pin 1, resolved footprint with no pads) still exits 0 —
`sys.exit(1)` sits only in the text branch of `main`, so the claimed
mode-independence of the exit code is false. -/
theorem json_mode_mismatch_exit_zero :
    (runResults
        [{ name := "U", footprint := "F", pin_numbers := {"1"},
           pin_occurrences := [("1", 1)] }]
        [("L", [("F", { name := "F" })])]).map VerificationResult.status
      = ["MISMATCH"] ∧
    mainRun (fun _ => true)
        (fun _ => [{ name := "U", footprint := "F", pin_numbers := {"1"},
                     pin_occurrences := [("1", 1)] }])
        (fun _ => [("L", [("F", { name := "F" })])]) ["s"] ["d"] true
      = [Event.parsedSymbolFile "s", Event.parsedFootprintDir "d",
         Event.reportEmitted true, Event.exited 0] ∧
    mainExitCode true
      (runResults
        [{ name := "U", footprint := "F", pin_numbers := {"1"},
           pin_occurrences := [("1", 1)] }]
        [("L", [("F", { name := "F" })])]) ≠ 1 := by
  decide

/-- C1 amended: in text mode the process exits 1 exactly when some result
has status MISMATCH and 0 otherwise — so FOOTPRINT_NOT_FOUND results alone
never force a non-zero exit; in JSON mode the exit code is always 0, even
when mismatches exist. -/
theorem exit_code_policy :
    (∀ results : List VerificationResult, mainExitCode true results = 0) ∧
    (∀ results : List VerificationResult,
      (mainExitCode false results = 1 ↔ ∃ r ∈ results, r.status = "MISMATCH") ∧
      (mainExitCode false results = 0 ↔ ∀ r ∈ results, r.status ≠ "MISMATCH")) ∧
    (∀ (jsonMode : Bool) (results : List VerificationResult),
      (∀ r ∈ results, r.status ≠ "MISMATCH") → mainExitCode jsonMode results = 0) := by
  have hpos : ∀ results : List VerificationResult,
      0 < mismatch_count results ↔ ∃ r ∈ results, r.status = "MISMATCH" := by
    intro results
    unfold mismatch_count
    rw [List.countP_pos_iff]
    constructor
    · rintro ⟨r, hr, hp⟩
      exact ⟨r, hr, by simpa using hp⟩
    · rintro ⟨r, hr, hp⟩
      exact ⟨r, hr, by simpa using hp⟩
  refine ⟨fun _ => rfl, fun results => ⟨?_, ?_⟩, ?_⟩
  · unfold mainExitCode
    by_cases h : 0 < mismatch_count results
    · simpa [h] using (hpos results).mp h
    · simp only [h, if_false, ite_false, if_true, ite_true]
      constructor
      · intro h0
        exact absurd h0 (by decide)
      · intro he
        exact absurd ((hpos results).mpr he) h
  · unfold mainExitCode
    by_cases h : 0 < mismatch_count results
    · simp only [h, if_true, ite_true, if_false]
      constructor
      · intro h0
        exact absurd h0 (by decide)
      · intro hall
        obtain ⟨r, hr, hp⟩ := (hpos results).mp h
        exact absurd hp (hall r hr)
    · simp only [h, if_false, ite_false]
      constructor
      · intro _ r hr hp
        exact h ((hpos results).mpr ⟨r, hr, hp⟩)
      · intro _
        rfl
  · intro jsonMode results hall
    cases jsonMode
    · unfold mainExitCode
      have h : ¬ 0 < mismatch_count results := by
        intro h
        obtain ⟨r, hr, hp⟩ := (hpos results).mp h
        exact hall r hr hp
      simp [h]
    · rfl

/-- C8 counterexample: for a result whose pins-without-pads set is
{10, 2, A1}, the text report shows the tie-break order [2, 10, A1] but the
JSON report's `pins_without_pads` array is the plain lexicographic
[10, 2, A1] — the tie-break rule does not apply to the JSON arrays. -/
theorem json_sort_not_tiebreak :
    format_sorted_pins
      { symbol_name := "U", footprint_name := "F", symbol_pin_count := 3,
        footprint_pad_count := 0, pins_without_pads := {"10", "2", "A1"},
        pads_without_pins := ∅ } = ["2", "10", "A1"] ∧
    (json_result
      { symbol_name := "U", footprint_name := "F", symbol_pin_count := 3,
        footprint_pad_count := 0, pins_without_pads := {"10", "2", "A1"},
        pads_without_pins := ∅ }).pins_without_pads = ["10", "2", "A1"] ∧
    (json_result
      { symbol_name := "U", footprint_name := "F", symbol_pin_count := 3,
        footprint_pad_count := 0, pins_without_pads := {"10", "2", "A1"},
        pads_without_pins := ∅ }).pins_without_pads ≠ ["2", "10", "A1"] := by
  decide

/-- C8 amended: the per-result lists of the text report are permutations of
the underlying sets sorted by the tie-break rule (all-digit identifiers
first, ordered by integer value, then the rest lexicographically), and
[10, 2, A1] renders there as [2, 10, A1]; the JSON report's
`pins_without_pads` and `pads_without_pins` arrays are instead sorted in
plain lexicographic string order. -/
theorem report_sorting_spec :
    (∀ x y, TieBreakRel x y ↔
      (pyIsDigit x = true ∧ pyIsDigit y = true ∧ strToNat x ≤ strToNat y) ∨
      (pyIsDigit x = true ∧ pyIsDigit y = false) ∨
      (pyIsDigit x = false ∧ pyIsDigit y = false ∧ lexLE x y = true)) ∧
    (∀ r : VerificationResult,
      (format_sorted_pins r).Perm (finsetToList r.pins_without_pads) ∧
      List.Sorted TieBreakRel (format_sorted_pins r) ∧
      (format_sorted_pads r).Perm (finsetToList r.pads_without_pins) ∧
      List.Sorted TieBreakRel (format_sorted_pads r) ∧
      ((json_result r).pins_without_pads).Perm (finsetToList r.pins_without_pads) ∧
      List.Sorted LexRel ((json_result r).pins_without_pads) ∧
      ((json_result r).pads_without_pins).Perm (finsetToList r.pads_without_pins) ∧
      List.Sorted LexRel ((json_result r).pads_without_pins)) ∧
    List.insertionSort TieBreakRel ["10", "2", "A1"] = ["2", "10", "A1"] ∧
    List.insertionSort LexRel ["10", "2", "A1"] = ["10", "2", "A1"] := by
  refine ⟨?_, ?_, by decide, by decide⟩
  · intro x y
    unfold TieBreakRel tieBreakLE
    by_cases dx : pyIsDigit x = true <;> by_cases dy : pyIsDigit y = true <;>
      simp [dx, dy]
  · intro r
    exact ⟨List.perm_insertionSort TieBreakRel _,
      List.sorted_insertionSort TieBreakRel _,
      List.perm_insertionSort TieBreakRel _,
      List.sorted_insertionSort TieBreakRel _,
      List.perm_insertionSort LexRel _,
      List.sorted_insertionSort LexRel _,
      List.perm_insertionSort LexRel _,
      List.sorted_insertionSort LexRel _⟩

theorem splitFirstOn_of_not_mem (c : Char) :
    ∀ l : List Char, c ∉ l → splitFirstOn c l = none := by
  intro l
  induction l with
  | nil => intro _; rfl
  | cons x xs ih =>
    intro h
    have hx : ¬ x = c := fun he => h (he ▸ List.mem_cons_self x xs)
    simp [splitFirstOn, hx, ih (fun hm => h (List.mem_cons_of_mem x hm))]

theorem splitFirstOn_append (c : Char) (f : List Char) :
    ∀ l : List Char, c ∉ l → splitFirstOn c (l ++ c :: f) = some (l, f) := by
  intro l
  induction l with
  | nil => intro _; simp [splitFirstOn]
  | cons x xs ih =>
    intro h
    have hx : ¬ x = c := fun he => h (he ▸ List.mem_cons_self x xs)
    simp [splitFirstOn, hx, ih (fun hm => h (List.mem_cons_of_mem x hm))]

/-- C6 counterexample: the reference ":X" names the library "" which exists
in the index and does not contain "X"; the claim then demands a not-found
outcome, but the code treats the empty library name as falsy and searches
all libraries, returning library "L"'s footprint "X". -/
theorem empty_libname_resolution_leak :
    dictFind ([("", []), ("L", [("X", { name := "X" })])] : FootprintLibs) "" = some [] ∧
    dictFind ([] : List (String × Footprint)) "X" = none ∧
    resolve_footprint_reference ":X" [("", []), ("L", [("X", { name := "X" })])]
      = some { name := "X" } := by
  decide

/-- C6 amended: the reference is split on the first separator; when the
library name is non-empty and known, lookup happens only inside that
library; when the reference is unqualified, or the library name is empty,
or it is unknown, all libraries are searched in index order and the first
one containing the footprint name wins; no-match yields `none` rather than
an exception. -/
theorem resolve_reference_behavior :
    (∀ (ref : String) (libs : FootprintLibs), ':' ∉ ref.toList →
      resolve_footprint_reference ref libs = searchAllLibs ref libs) ∧
    (∀ (l f : String) (libs : FootprintLibs) (lib : List (String × Footprint)),
      ':' ∉ l.toList → l ≠ "" → dictFind libs l = some lib →
      resolve_footprint_reference (l ++ ":" ++ f) libs = dictFind lib f) ∧
    (∀ (l f : String) (libs : FootprintLibs),
      ':' ∉ l.toList → (l = "" ∨ dictFind libs l = none) →
      resolve_footprint_reference (l ++ ":" ++ f) libs = searchAllLibs f libs) ∧
    (∀ (f : String) (libs : FootprintLibs) (fp : Footprint),
      searchAllLibs f libs = some fp →
      ∃ pre entry post, libs = pre ++ entry :: post ∧
        (∀ e ∈ pre, dictFind e.2 f = none) ∧ dictFind entry.2 f = some fp) ∧
    (∀ (f : String) (libs : FootprintLibs),
      searchAllLibs f libs = none ↔ ∀ e ∈ libs, dictFind e.2 f = none) := by
  have hsplit : ∀ (l f : String), ':' ∉ l.toList →
      splitFirstOn ':' (l ++ ":" ++ f).toList = some (l.toList, f.toList) := by
    intro l f hl
    have : (l ++ ":" ++ f).toList = l.toList ++ ':' :: f.toList := by
      show (l ++ ":" ++ f).data = l.data ++ ':' :: f.data
      simp
    rw [this]
    exact splitFirstOn_append ':' f.toList l.toList hl
  refine ⟨?_, ?_, ?_, ?_, ?_⟩
  · intro ref libs h
    unfold resolve_footprint_reference
    rw [splitFirstOn_of_not_mem ':' ref.toList h]
  · intro l f libs lib hl hne hfind
    unfold resolve_footprint_reference
    rw [hsplit l f hl]
    have hmk : String.mk l.toList = l := rfl
    have hmkf : String.mk f.toList = f := rfl
    simp only [hmk, hmkf]
    have hcond : (l != "" && (dictFind libs l).isSome) = true := by
      rw [hfind]
      simp [bne_iff_ne, hne]
    rw [if_pos hcond, hfind]
    rfl
  · intro l f libs hl hcase
    unfold resolve_footprint_reference
    rw [hsplit l f hl]
    have hmk : String.mk l.toList = l := rfl
    have hmkf : String.mk f.toList = f := rfl
    simp only [hmk, hmkf]
    have hcond : (l != "" && (dictFind libs l).isSome) = false := by
      rcases hcase with h | h
      · simp [h]
      · simp [h]
    rw [hcond]
    simp
  · intro f libs fp
    induction libs with
    | nil => intro h; exact Option.noConfusion h
    | cons e rest ih =>
      intro h
      unfold searchAllLibs at h
      cases hfind : dictFind e.2 f with
      | some fp2 =>
        rw [hfind] at h
        refine ⟨[], e, rest, by simp, by simp, ?_⟩
        rw [hfind]
        simpa using h
      | none =>
        rw [hfind] at h
        obtain ⟨pre, entry, post, hsp, hpre, hentry⟩ := ih h
        refine ⟨e :: pre, entry, post, by simp [hsp], ?_, hentry⟩
        intro x hx
        rcases List.mem_cons.mp hx with hx | hx
        · rw [hx]
          exact hfind
        · exact hpre x hx
  · intro f libs
    induction libs with
    | nil => simp [searchAllLibs]
    | cons e rest ih =>
      unfold searchAllLibs
      cases hfind : dictFind e.2 f with
      | some fp2 =>
        constructor
        · intro h
          exact Option.noConfusion h
        · intro h
          have he := h e (List.mem_cons_self e rest)
          rw [hfind] at he
          exact Option.noConfusion he
      | none =>
        constructor
        · intro h x hx
          rcases List.mem_cons.mp hx with hx | hx
          · rw [hx]
            exact hfind
          · exact ih.mp h x hx
        · intro h
          exact ih.mpr (fun x hx => h x (List.mem_cons_of_mem e hx))

theorem inputPhase_ok (mk : String → Event) (ex : String → Bool) :
    ∀ ps : List String, (inputPhase mk ex ps).2 = false →
      (inputPhase mk ex ps).1 = ps.map mk ∧ ∀ p ∈ ps, ex p = true := by
  intro ps
  induction ps with
  | nil => intro _; exact ⟨rfl, by simp⟩
  | cons p ps ih =>
    intro h
    by_cases hp : ex p = true
    · rw [show inputPhase mk ex (p :: ps)
          = (mk p :: (inputPhase mk ex ps).1, (inputPhase mk ex ps).2) from by
        simp [inputPhase, hp]] at h ⊢
      obtain ⟨h1, h2⟩ := ih h
      refine ⟨by simp [h1], ?_⟩
      intro q hq
      rcases List.mem_cons.mp hq with hq | hq
      · rw [hq]
        exact hp
      · exact h2 q hq
    · have hp0 : ex p = false := by
        cases hep : ex p
        · rfl
        · exact absurd hep hp
      simp [inputPhase, hp0] at h

theorem inputPhase_aborted (mk : String → Event) (ex : String → Bool) :
    ∀ ps : List String, (inputPhase mk ex ps).2 = true →
      ∃ evs m, ex m = false ∧
        (inputPhase mk ex ps).1 = evs ++ [Event.errorReported m, Event.exited 1] ∧
        ∀ e ∈ evs, ∃ p, ex p = true ∧ e = mk p := by
  intro ps
  induction ps with
  | nil => intro h; simp [inputPhase] at h
  | cons p ps ih =>
    intro h
    by_cases hp : ex p = true
    · rw [show inputPhase mk ex (p :: ps)
          = (mk p :: (inputPhase mk ex ps).1, (inputPhase mk ex ps).2) from by
        simp [inputPhase, hp]] at h ⊢
      obtain ⟨evs, m, hm, he, hall⟩ := ih h
      refine ⟨mk p :: evs, m, hm, by simp [he], ?_⟩
      intro e hme
      rcases List.mem_cons.mp hme with hme | hme
      · exact ⟨p, hp, hme⟩
      · exact hall e hme
    · have hp0 : ex p = false := by
        cases hep : ex p
        · rfl
        · exact absurd hep hp
      refine ⟨[], p, hp0, by simp [inputPhase, hp0], by simp⟩

theorem inputPhase_aborts_of_missing (mk : String → Event) (ex : String → Bool) :
    ∀ ps : List String, (∃ p ∈ ps, ex p = false) → (inputPhase mk ex ps).2 = true := by
  intro ps
  induction ps with
  | nil =>
    rintro ⟨p, hp, _⟩
    exact absurd hp (List.not_mem_nil p)
  | cons q ps ih =>
    rintro ⟨p, hp, hfalse⟩
    by_cases hq : ex q = true
    · rw [show inputPhase mk ex (q :: ps)
          = (mk q :: (inputPhase mk ex ps).1, (inputPhase mk ex ps).2) from by
        simp [inputPhase, hq]]
      rcases List.mem_cons.mp hp with h | h
      · rw [h] at hfalse
        rw [hfalse] at hq
        exact absurd hq (by decide)
      · exact ih ⟨p, h, hfalse⟩
    · have hq0 : ex q = false := by
        cases hep : ex q
        · rfl
        · exact absurd hep hq
      simp [inputPhase, hq0]

/-- C2 counterexample: symbol files ["a", "b"] where only "a" exists — the
run does abort with exit code 1 and no report, but the trace shows "a" was
parsed before the missing "b" was even checked, refuting "before any
parsing occurs" for this combination of existing and missing paths. -/
theorem parse_before_missing_path_exit :
    mainRun (fun p => p == "a") (fun _ => []) (fun _ => []) ["a", "b"] [] false
      = [Event.parsedSymbolFile "a", Event.errorReported "b", Event.exited 1] ∧
    (("b" : String) == "a") = false ∧
    Event.parsedSymbolFile "a"
      ∈ mainRun (fun p => p == "a") (fun _ => []) (fun _ => []) ["a", "b"] [] false := by
  decide

/-- C2 amended: if any declared input path does not exist, the run reports
the first missing path to the error stream and terminates with exit code 1,
emitting no report; paths that come earlier in the checking order (symbol
files first, then footprint directories) may already have been parsed, and
only existing paths are ever parsed. -/
theorem missing_input_aborts_run :
    ∀ (exists_fn : String → Bool) (read_symbols : String → List Symbol)
      (read_dir : String → FootprintLibs) (symPaths fpPaths : List String)
      (jsonMode : Bool),
      (∃ p ∈ symPaths ++ fpPaths, exists_fn p = false) →
      ∃ evs m, exists_fn m = false ∧
        mainRun exists_fn read_symbols read_dir symPaths fpPaths jsonMode
          = evs ++ [Event.errorReported m, Event.exited 1] ∧
        (∀ e ∈ evs, (∃ p, exists_fn p = true ∧ e = Event.parsedSymbolFile p) ∨
          (∃ p, exists_fn p = true ∧ e = Event.parsedFootprintDir p)) ∧
        (∀ b, Event.reportEmitted b
          ∉ mainRun exists_fn read_symbols read_dir symPaths fpPaths jsonMode) := by
  intro ex rs rd sps fps jm hmiss
  by_cases hsp : (inputPhase Event.parsedSymbolFile ex sps).2 = true
  · have ht : mainRun ex rs rd sps fps jm
        = (inputPhase Event.parsedSymbolFile ex sps).1 := by
      simp [mainRun, hsp]
    obtain ⟨evs, m, hm, he, hall⟩ := inputPhase_aborted _ ex sps hsp
    refine ⟨evs, m, hm, by rw [ht, he], ?_, ?_⟩
    · intro e hme
      obtain ⟨p, hp, rfl⟩ := hall e hme
      exact Or.inl ⟨p, hp, rfl⟩
    · intro b hb
      rw [ht, he] at hb
      rcases List.mem_append.mp hb with hb | hb
      · obtain ⟨p, _, hbe⟩ := hall _ hb
        exact Event.noConfusion hbe
      · rcases List.mem_cons.mp hb with hb | hb
        · exact Event.noConfusion hb
        · rcases List.mem_cons.mp hb with hb | hb
          · exact Event.noConfusion hb
          · exact absurd hb (List.not_mem_nil _)
  · have hsp0 : (inputPhase Event.parsedSymbolFile ex sps).2 = false := by
      cases h : (inputPhase Event.parsedSymbolFile ex sps).2
      · rfl
      · exact absurd h hsp
    obtain ⟨hmap, hallex⟩ := inputPhase_ok _ ex sps hsp0
    have hmissfp : ∃ p ∈ fps, ex p = false := by
      obtain ⟨p, hp, hfalse⟩ := hmiss
      rcases List.mem_append.mp hp with h | h
      · have := hallex p h
        rw [hfalse] at this
        exact absurd this (by decide)
      · exact ⟨p, h, hfalse⟩
    have hfp := inputPhase_aborts_of_missing Event.parsedFootprintDir ex fps hmissfp
    have ht : mainRun ex rs rd sps fps jm
        = (inputPhase Event.parsedSymbolFile ex sps).1
          ++ (inputPhase Event.parsedFootprintDir ex fps).1 := by
      simp [mainRun, hsp0, hfp]
    obtain ⟨evs, m, hm, he, hall⟩ := inputPhase_aborted _ ex fps hfp
    refine ⟨(inputPhase Event.parsedSymbolFile ex sps).1 ++ evs, m, hm, ?_, ?_, ?_⟩
    · rw [ht, he, List.append_assoc]
    · intro e hme
      rcases List.mem_append.mp hme with hb | hb
      · rw [hmap] at hb
        obtain ⟨p, hp, rfl⟩ := List.mem_map.mp hb
        exact Or.inl ⟨p, hallex p hp, rfl⟩
      · obtain ⟨p, hp, rfl⟩ := hall e hb
        exact Or.inr ⟨p, hp, rfl⟩
    · intro b hb
      rw [ht, he] at hb
      rcases List.mem_append.mp hb with hb | hb
      · rw [hmap] at hb
        obtain ⟨p, _, hbe⟩ := List.mem_map.mp hb
        exact Event.noConfusion hbe
      · rcases List.mem_append.mp hb with hb | hb
        · obtain ⟨p, _, hbe⟩ := hall _ hb
          exact Event.noConfusion hbe
        · rcases List.mem_cons.mp hb with hb | hb
          · exact Event.noConfusion hb
          · rcases List.mem_cons.mp hb with hb | hb
            · exact Event.noConfusion hb
            · exact absurd hb (List.not_mem_nil _)

/-- C2 witness: the amended theorem applied to the concrete run with symbol
files ["a", "b"] of which "b" is missing. -/
theorem missing_input_aborts_run_witness :
    ∃ evs m, (fun p => p == "a") m = false ∧
      mainRun (fun p => p == "a") (fun _ => []) (fun _ => []) ["a", "b"] [] false
        = evs ++ [Event.errorReported m, Event.exited 1] ∧
      (∀ e ∈ evs, (∃ p, (fun p => p == "a") p = true ∧ e = Event.parsedSymbolFile p) ∨
        (∃ p, (fun p => p == "a") p = true ∧ e = Event.parsedFootprintDir p)) ∧
      (∀ b, Event.reportEmitted b
        ∉ mainRun (fun p => p == "a") (fun _ => []) (fun _ => []) ["a", "b"] [] false) :=
  missing_input_aborts_run (fun p => p == "a") (fun _ => []) (fun _ => [])
    ["a", "b"] [] false ⟨"b", by decide, by decide⟩

/-- The names a pending block contributes when flushed. -/
def curNames : Option (String × List String) → List String
  | some nc => [nc.1]
  | none => []

theorem appendLine_names (cur : Option (String × List String)) (inSym : Bool) (line : String) :
    curNames (appendLine cur inSym line) = curNames cur := by
  cases cur <;> cases inSym <;> simp [appendLine, curNames]

theorem splitGo_names :
    ∀ (lines : List String) (cur : Option (String × List String)) (inSym : Bool) (depth : Int),
      (splitGo cur inSym depth lines).map Prod.fst
        = curNames cur ++ lines.filterMap topLevelName := by
  intro lines
  induction lines with
  | nil =>
    intro cur inSym depth
    cases cur <;> simp [splitGo, curNames]
  | cons line rest ih =>
    intro cur inSym depth
    cases hname : symbolLineName line with
    | some name =>
      cases hsub : isSubSymbolName name with
      | true =>
        have htop : topLevelName line = none := by simp [topLevelName, hname, hsub]
        simp [splitGo, hname, hsub, ih, appendLine_names, htop]
      | false =>
        have htop : topLevelName line = some name := by simp [topLevelName, hname, hsub]
        cases cur <;> simp [splitGo, hname, hsub, ih, htop, curNames]
    | none =>
      have htop : topLevelName line = none := by simp [topLevelName, hname]
      simp [splitGo, hname, ih, appendLine_names, htop]

theorem splitGo_content_some :
    ∀ (lines : List String) (n : String) (c : List String) (depth : Int),
      (splitGo (some (n, c)) true depth lines).flatMap Prod.snd = c ++ lines := by
  intro lines
  induction lines with
  | nil => intro n c depth; simp [splitGo]
  | cons line rest ih =>
    intro n c depth
    cases hname : symbolLineName line with
    | some name =>
      cases hsub : isSubSymbolName name with
      | true => simp [splitGo, hname, hsub, appendLine, ih]
      | false => simp [splitGo, hname, hsub, ih]
    | none => simp [splitGo, hname, appendLine, ih]

theorem splitGo_content_none :
    ∀ (lines : List String) (depth : Int),
      (splitGo none false depth lines).flatMap Prod.snd
        = lines.dropWhile (fun l => (topLevelName l).isNone) := by
  intro lines
  induction lines with
  | nil => intro depth; simp [splitGo]
  | cons line rest ih =>
    intro depth
    cases hname : symbolLineName line with
    | some name =>
      cases hsub : isSubSymbolName name with
      | true =>
        have htop : (topLevelName line).isNone = true := by
          simp [topLevelName, hname, hsub]
        simp [splitGo, hname, hsub, appendLine, ih, List.dropWhile_cons, htop]
      | false =>
        have htop : (topLevelName line).isNone = false := by
          simp [topLevelName, hname, hsub]
        simp [splitGo, hname, hsub, splitGo_content_some, List.dropWhile_cons, htop]
    | none =>
      have htop : (topLevelName line).isNone = true := by
        simp [topLevelName, hname]
      simp [splitGo, hname, appendLine, ih, List.dropWhile_cons, htop]

/-- C7: the block splitter yields one block per top-level symbol line, in
document order (their names are exactly the top-level names of the lines);
a document with no top-level symbol line yields the empty sequence; every
line from the first top-level symbol line on — including the lines of
sub-symbol definitions such as `U1_1_1` — lands in the accumulated blocks,
in order; and on a concrete document the sub-symbol's pin is credited to
the parent symbol U1, which is the only Symbol produced. -/
theorem block_splitter_spec :
    (∀ lines : List String,
      (splitGo none false 0 lines).map Prod.fst = lines.filterMap topLevelName) ∧
    (∀ lines : List String,
      lines.filterMap topLevelName = [] → splitGo none false 0 lines = []) ∧
    (∀ lines : List String,
      (splitGo none false 0 lines).flatMap Prod.snd
        = lines.dropWhile (fun l => (topLevelName l).isNone)) ∧
    parse_symbol_library
        "(kicad_symbol_lib\n  (symbol \"U1\"\n    (property \"Footprint\" \"LCSC:F1\")\n    (symbol \"U1_1_1\"\n      (pin (number \"1\"))\n    )\n  )\n)"
      = [{ name := "U1", footprint := "LCSC:F1", pin_numbers := {"1"},
           pin_occurrences := [("1", 1)], lcsc := "" }] := by
  refine ⟨?_, ?_, ?_, by decide⟩
  · intro lines
    rw [splitGo_names lines none false 0]
    rfl
  · intro lines h
    have := splitGo_names lines none false 0
    rw [h] at this
    have hmap : (splitGo none false 0 lines).map Prod.fst = [] := this
    exact List.map_eq_nil_iff.mp hmap
  · intro lines
    exact splitGo_content_none lines 0

theorem dictSet_keys_toFinset (k : String) (v : Nat) :
    ∀ d : List (String × Nat),
      ((dictSet d k v).map Prod.fst).toFinset = insert k (d.map Prod.fst).toFinset := by
  intro d
  induction d with
  | nil => simp [dictSet]
  | cons kv rest ih =>
    by_cases h : kv.1 = k
    · simp [dictSet, h]
    · simp only [dictSet, h, ite_false, if_neg h, List.map_cons, List.toFinset_cons, ih]
      rw [Finset.Insert.comm]

theorem dictSet_incr_sum (k : String) :
    ∀ d : List (String × Nat),
      ((dictSet d k (dictGet d k + 1)).map Prod.snd).sum = (d.map Prod.snd).sum + 1 := by
  intro d
  induction d with
  | nil => simp [dictSet, dictGet, dictFind]
  | cons kv rest ih =>
    by_cases h : kv.1 = k
    · simp [dictSet, dictGet, dictFind, h]
      omega
    · simp only [dictSet, dictGet, dictFind, h, ite_false, if_neg h, List.map_cons,
        List.sum_cons]
      have := ih
      simp only [dictGet] at this
      rw [this]
      omega

theorem dictSet_counts (k : String) (v : Nat) (hv : 1 ≤ v) :
    ∀ d : List (String × Nat), (∀ pc ∈ d, 1 ≤ pc.2) →
      ∀ pc ∈ dictSet d k v, 1 ≤ pc.2 := by
  intro d
  induction d with
  | nil =>
    intro _ pc hpc
    rcases List.mem_cons.mp hpc with hpc | hpc
    · rw [hpc]
      exact hv
    · exact absurd hpc (List.not_mem_nil pc)
  | cons kv rest ih =>
    intro hall pc hpc
    by_cases h : kv.1 = k
    · rw [show dictSet (kv :: rest) k v = (k, v) :: rest from by simp [dictSet, h]] at hpc
      rcases List.mem_cons.mp hpc with hpc | hpc
      · rw [hpc]
        exact hv
      · exact hall pc (List.mem_cons_of_mem kv hpc)
    · rw [show dictSet (kv :: rest) k v = kv :: dictSet rest k v from by
        simp [dictSet, h]] at hpc
      rcases List.mem_cons.mp hpc with hpc | hpc
      · rw [hpc]
        exact hall kv (List.mem_cons_self kv rest)
      · exact ih (fun q hq => hall q (List.mem_cons_of_mem kv hq)) pc hpc

theorem foldl_addPin_invariants :
    ∀ (pins : List String) (sym : Symbol),
      sym.pin_numbers = (sym.pin_occurrences.map Prod.fst).toFinset →
      (∀ pc ∈ sym.pin_occurrences, 1 ≤ pc.2) →
      (pins.foldl addPin sym).pin_numbers
        = ((pins.foldl addPin sym).pin_occurrences.map Prod.fst).toFinset ∧
      (∀ pc ∈ (pins.foldl addPin sym).pin_occurrences, 1 ≤ pc.2) ∧
      ((pins.foldl addPin sym).pin_occurrences.map Prod.snd).sum
        = (sym.pin_occurrences.map Prod.snd).sum + pins.length := by
  intro pins
  induction pins with
  | nil =>
    intro sym h1 h2
    exact ⟨h1, h2, by simp⟩
  | cons p ps ih =>
    intro sym h1 h2
    have step1 : (addPin sym p).pin_numbers
        = ((addPin sym p).pin_occurrences.map Prod.fst).toFinset := by
      simp only [addPin, dictSet_keys_toFinset]
      rw [h1]
    have step2 : ∀ pc ∈ (addPin sym p).pin_occurrences, 1 ≤ pc.2 :=
      dictSet_counts p (dictGet sym.pin_occurrences p + 1) (by omega)
        sym.pin_occurrences h2
    obtain ⟨a, b, c⟩ := ih (addPin sym p) step1 step2
    refine ⟨a, b, ?_⟩
    rw [List.foldl_cons] at *
    rw [c]
    simp only [addPin, dictSet_incr_sum]
    simp [Nat.add_assoc, Nat.add_comm 1 ps.length]

/-- C10: every Symbol the extractor produces has `pin_numbers` equal to the
key set of `pin_occurrences`, every occurrence count at least 1, and the
counts summing to the number of pin declarations matched in the block. -/
theorem parse_symbol_block_invariants :
    ∀ (name : String) (lines : List String),
      (parse_symbol_block name lines).pin_numbers =
        ((parse_symbol_block name lines).pin_occurrences.map Prod.fst).toFinset ∧
      (∀ pc ∈ (parse_symbol_block name lines).pin_occurrences, 1 ≤ pc.2) ∧
      ((parse_symbol_block name lines).pin_occurrences.map Prod.snd).sum
        = (scanPins (String.intercalate "\n" lines).toList).length := by
  intro name lines
  have h := foldl_addPin_invariants (scanPins (String.intercalate "\n" lines).toList)
    { name := name
      footprint := (searchProperty ["Footprint"] (String.intercalate "\n" lines).toList).getD ""
      pin_numbers := ∅
      pin_occurrences := []
      lcsc := (searchProperty ["LCSC", "LCSC Part"]
        (String.intercalate "\n" lines).toList).getD "" }
    (by simp) (by simp)
  simpa [parse_symbol_block] using h

end KicadVerify

/- Concrete evaluation checks of the embedding: the scanners, the resolver,
the verifier and the sorter on small inputs, all decided by the kernel. -/

example :
    List.insertionSort KicadVerify.TieBreakRel ["10", "2", "A1"] = ["2", "10", "A1"] := by
  decide

example :
    List.insertionSort KicadVerify.LexRel ["10", "2", "A1"] = ["10", "2", "A1"] := by
  decide

example :
    KicadVerify.finsetToList {"10", "2", "A1"} = ["10", "2", "A1"] := by
  decide

example : KicadVerify.symbolLineName "  (symbol \"U1\"" = some "U1" := by decide

example : KicadVerify.symbolLineName "(kicad_symbol_lib" = none := by decide

example : KicadVerify.isSubSymbolName "U1_1_1" = true := by decide

example : KicadVerify.isSubSymbolName "U1" = false := by decide

example : KicadVerify.isSubSymbolName "U1_12" = false := by decide

example :
    KicadVerify.scanPins ("(pin (number \"1\")) (number \"A2\"".toList) = ["1", "A2"] := by
  decide

example :
    KicadVerify.searchProperty ["Footprint"]
      ("  (property \"Footprint\" \"LCSC:F1\")".toList) = some "LCSC:F1" := by
  decide

example :
    KicadVerify.searchProperty ["LCSC", "LCSC Part"]
      ("  (property \"LCSC Part\" \"C123\")".toList) = some "C123" := by
  decide

example :
    KicadVerify.parse_symbol_library
      "(kicad_symbol_lib\n  (symbol \"U1\"\n    (property \"Footprint\" \"LCSC:F1\")\n    (symbol \"U1_1_1\"\n      (pin (number \"1\"))\n    )\n  )\n)"
    = [{ name := "U1", footprint := "LCSC:F1", pin_numbers := {"1"},
         pin_occurrences := [("1", 1)], lcsc := "" }] := by
  decide
example :
    KicadVerify.resolve_footprint_reference "LCSC:X"
      [("LCSC", [("X", { name := "X" })])] = some { name := "X" } := by decide

example :
    (KicadVerify.verify_symbol
      { name := "U", footprint := "F", pin_numbers := {"1"},
        pin_occurrences := [("1", 1)] }
      [("L", [("F", { name := "F" })])]).status = "MISMATCH" := by decide
